import Mathlib

/-!
Shallow embedding of the spam-analysis utility: an HTML keyword scorer
(checkStopWords, analyzeHtmlForSpam, extractTextContent) and the Wayback
domain/batch analyzers (analyzeDomainForSpam, analyzeDomainsForSpam).

Strings are modelled as `List Char`; JS numbers as `ℚ` (the arithmetic the
code performs is exact at the small magnitudes involved); JS objects as
structures, with `Option` fields where the source emits records that omit
a key (an absent key reads as `undefined` in JS, which is distinct from 0).
External I/O (cheerio parsing, snapshot fetching) is passed in as explicit
function arguments or `Except`-valued outcomes.
-/

namespace SpamCheck

/-- The JS whitespace class used by the source's regexes (`\s`), by
`String.prototype.trim` and by `split(/\s+/)`, restricted to its ASCII
members (space, tab, line feed, carriage return, vertical tab, form feed). -/
def isJsWs (c : Char) : Bool :=
  c == ' ' || c == '\t' || c == '\n' || c == '\r' || c == '\x0b' || c == '\x0c'

/-- `String.prototype.toLowerCase`, modelled as per-character lowering. -/
def jsLower (cs : List Char) : List Char := cs.map Char.toLower

/-- `String.prototype.trim`: drop whitespace from both ends. -/
def jsTrim (cs : List Char) : List Char :=
  ((cs.dropWhile isJsWs).reverse.dropWhile isJsWs).reverse

/-- Worker for `jsSplitWs`. The flag records whether we are currently
inside a separator run whose preceding piece has already been emitted. -/
def splitWsAux (gap : Bool) (cs : List Char) (acc : List Char) : List (List Char) :=
  match cs with
  | [] => [acc.reverse]
  | c :: rest =>
    if isJsWs c then
      if gap then splitWsAux true rest acc
      else acc.reverse :: splitWsAux true rest []
    else splitWsAux false rest (c :: acc)

/-- `text.split(/\s+/)` as used at line 106 of the parser: the pieces of
the string between maximal whitespace runs.  As in JS, a leading
whitespace run contributes a leading empty piece and a trailing run a
trailing empty piece, so the result length is not in general the number
of (nonempty) words. -/
def jsSplitWs (cs : List Char) : List (List Char) := splitWsAux false cs []

/-- Number of non-overlapping, leftmost-first occurrences of `needle` in
`hay`, as counted by `hay.match(new RegExp(needle, 'g'))`.  The source
builds the regex from the (already lowercased) stop word and matches with
the `i` flag against the original text; we count in the lowercased text,
which is the same number under per-character lowercasing.  (The source
interpolates the stop word into the regex unescaped; the model treats it
as the literal string, which is the behavior for words without regex
metacharacters.)  The fuel argument — initially `hay.length` — only makes
the skip-ahead recursion structural; each step consumes at least one
character of `hay`, so the fuel never runs out first. -/
def countOccFuel (fuel : Nat) (needle : List Char) (hay : List Char) : Nat :=
  match fuel, hay with
  | 0, _ => 0
  | _, [] => 0
  | fuel' + 1, c :: rest =>
    if needle.isPrefixOf (c :: rest) then
      1 + countOccFuel fuel' needle (rest.drop (needle.length - 1))
    else countOccFuel fuel' needle rest

/-- Occurrence count of a stop word in the text (see `countOccFuel`). -/
def countOcc (needle : List Char) (hay : List Char) : Nat :=
  countOccFuel hay.length needle hay

/-- `Math.round(q * 100) / 100`: round to two decimal places.
`Math.round` rounds half toward positive infinity. -/
def round2 (q : ℚ) : ℚ := ((⌊q * 100 + 1 / 2⌋ : ℤ) : ℚ) / 100

/-- One entry of `found`: a stop word (lowercased, trimmed) together with
its occurrence count. -/
structure StopWordMatch where
  word : List Char
  count : Nat
deriving Repr, DecidableEq

/-- Result of `checkStopWords`. -/
structure ScoreResult where
  found : List StopWordMatch
  count : Nat
  score : ℚ
deriving DecidableEq

/-- The normalization applied to each stop word before matching:
`word.toLowerCase().trim()`. -/
def normalizeWord (w : List Char) : List Char := jsTrim (jsLower w)

/-- Loop body of the `stopWords.forEach` in `checkStopWords` (lines
87–102 of the parser): if the normalized word is nonempty and occurs in
the lowercased text, and is not already recorded, append it with its
occurrence count. -/
def swStep (textLower : List Char) (acc : List StopWordMatch) (w : List Char) :
    List StopWordMatch :=
  let wordLower := normalizeWord w
  if wordLower ≠ [] ∧ wordLower <:+: textLower then
    if wordLower ∈ acc.map StopWordMatch.word then acc
    else acc ++ [StopWordMatch.mk wordLower (countOcc wordLower textLower)]
  else acc

/-- `found.reduce((sum, item) => sum + item.count, 0)`. -/
def sumCounts (l : List StopWordMatch) : Nat := l.foldl (fun s m => s + m.count) 0

/-- `checkStopWords(text, stopWords)` (lines 79–115 of the parser).
Guard: empty text or an empty stop-word list short-circuits to the zero
result.  Otherwise the stop words are scanned in order, and the score is
`min(100, foundOccurrences / totalWords * 100)` rounded to two decimals,
where `totalWords` is the length of `text.split(/\s+/)`. -/
def checkStopWords (text : List Char) (stopWords : List (List Char)) : ScoreResult :=
  if text = [] ∨ stopWords = [] then ⟨[], 0, 0⟩
  else
    let textLower := jsLower text
    let found := stopWords.foldl (swStep textLower) []
    let totalWords := (jsSplitWs text).length
    let rawScore : ℚ :=
      if totalWords > 0 then min 100 ((sumCounts found : ℚ) / (totalWords : ℚ) * 100)
      else 0
    ⟨found, found.length, round2 rawScore⟩

/-- Result of `extractMetaTags`; each field defaults to the empty string. -/
structure MetaTags where
  title : List Char
  description : List Char
  keywords : List Char
deriving Repr, DecidableEq

/-- `[ ... ].filter(Boolean).join(' ')` over a list of strings: drop the
empty ones and join the rest with single spaces. -/
def joinNonEmpty (parts : List (List Char)) : List Char :=
  List.intercalate [' '] (parts.filter (fun p => decide (p ≠ [])))

/-- Result record of `analyzeHtmlForSpam`. -/
structure HtmlSpamAnalysis where
  textLength : Nat
  metaTags : MetaTags
  stopWords : ScoreResult
  isSpam : Bool
  spamScore : ℚ
deriving DecidableEq

/-- `analyzeHtmlForSpam(html, stopWords)` (lines 123–144 of the parser),
with the two awaited extraction results passed in explicitly:
`textContent` stands for `await extractTextContent(html)` and `metaTags`
for `await extractMetaTags(html)` (both depend on the external cheerio
parser).  The text blob is the nonempty parts joined with spaces, and
`isSpam` is `count > 0 || score > 5`. -/
def analyzeHtmlForSpam (textContent : List Char) (metaTags : MetaTags)
    (stopWords : List (List Char)) : HtmlSpamAnalysis :=
  let allText := joinNonEmpty [textContent, metaTags.title, metaTags.description,
    metaTags.keywords]
  let check := checkStopWords allText stopWords
  { textLength := textContent.length
    metaTags := metaTags
    stopWords := check
    isSpam := decide (check.count > 0) || decide (check.score > 5)
    spamScore := check.score }

/-- Case-insensitive literal prefix test (the `i` flag of the source's
regexes applied to a fixed pattern). -/
def ciBegins (pat : List Char) (cs : List Char) : Bool :=
  match pat, cs with
  | [], _ => true
  | _ :: _, [] => false
  | p :: ps, c :: rest => p.toLower == c.toLower && ciBegins ps rest

/-- Scan to the first `>` and return the remainder after it, bundled with
a length bound; models the `[^>]*>` / `[^>]+>` parts of the tag regexes
(a greedy run of non-`>` characters must be closed by a `>`). -/
def afterGt (cs : List Char) : Option { r : List Char // r.length < cs.length } :=
  match cs with
  | [] => none
  | c :: rest =>
    if c = '>' then some ⟨rest, by simp⟩
    else
      match afterGt rest with
      | none => none
      | some ⟨r, h⟩ => some ⟨r, by simpa using Nat.lt_succ_of_lt h⟩

/-- Scan for the closing tag `</tag>` (case-insensitively, matching the
lazy `[\s\S]*?<\/tag>`) and return the remainder after it. -/
def afterCloseTag (tag : List Char) (cs : List Char) :
    Option { r : List Char // r.length < cs.length } :=
  match cs with
  | [] => none
  | c :: rest =>
    if ciBegins ('<' :: '/' :: (tag ++ ['>'])) (c :: rest) then
      some ⟨rest.drop (tag.length + 2), by
        simp only [List.length_cons, List.length_drop]
        omega⟩
    else
      match afterCloseTag tag rest with
      | none => none
      | some ⟨r, h⟩ => some ⟨r, by simpa using Nat.lt_succ_of_lt h⟩

/-- Try to match the opening `<tag[^>]*>` (case-insensitively) at the
start of `cs`; on success return the remainder after the `>`. -/
def afterOpenTag (tag : List Char) (cs : List Char) :
    Option { r : List Char // r.length < cs.length } :=
  if ciBegins ('<' :: tag) cs then
    match afterGt (cs.drop (tag.length + 1)) with
    | none => none
    | some ⟨r, h⟩ => some ⟨r, by
        simp only [List.length_drop] at h
        omega⟩
  else none

/-- `html.replace(/<tag[^>]*>[\s\S]*?<\/tag>/gi, '')`: delete every
block from an opening `tag` through its nearest closing tag, scanning
left to right and continuing after each deleted block (lines 34–35 of
the parser, with `tag` being `script` or `style`). -/
def stripTagBlocks (tag : List Char) (cs : List Char) : List Char :=
  match cs with
  | [] => []
  | c :: rest =>
    match afterOpenTag tag (c :: rest) with
    | some ⟨afterOpen, hOpen⟩ =>
      match afterCloseTag tag afterOpen with
      | some ⟨afterClose, hClose⟩ => stripTagBlocks tag afterClose
      | none => c :: stripTagBlocks tag rest
    | none => c :: stripTagBlocks tag rest
termination_by cs.length
decreasing_by
· exact Nat.lt_trans hClose hOpen
· simp

/-- The `[^>]+>` part of the remaining-tag regex: at least one non-`>`
character, then everything through the first `>`. -/
def afterTagBody (cs : List Char) : Option { r : List Char // r.length < cs.length } :=
  match cs with
  | [] => none
  | c :: rest =>
    if c = '>' then none
    else
      match afterGt rest with
      | none => none
      | some ⟨r, h⟩ => some ⟨r, by simpa using Nat.lt_succ_of_lt h⟩

/-- `.replace(/<[^>]+>/g, ' ')` (line 36): replace every remaining tag —
a `<`, at least one non-`>` character, then `>` — by a single space. -/
def stripAllTags (cs : List Char) : List Char :=
  match cs with
  | [] => []
  | c :: rest =>
    if c = '<' then
      match afterTagBody rest with
      | some ⟨r, h⟩ => ' ' :: stripAllTags r
      | none => c :: stripAllTags rest
    else c :: stripAllTags rest
termination_by cs.length
decreasing_by
· exact Nat.lt_succ_of_lt h
· simp
· simp

/-- Worker for `collapseWs`; the flag records whether the previous
character belonged to a whitespace run that already emitted its space. -/
def collapseWsAux (inRun : Bool) (cs : List Char) : List Char :=
  match cs with
  | [] => []
  | c :: rest =>
    if isJsWs c then
      if inRun then collapseWsAux true rest
      else ' ' :: collapseWsAux true rest
    else c :: collapseWsAux false rest

/-- `.replace(/\s+/g, ' ')`: collapse every whitespace run to one space. -/
def collapseWs (cs : List Char) : List Char := collapseWsAux false cs

/-- The post-processing shared by both extraction paths:
`.replace(/\s+/g, ' ').trim().toLowerCase()`. -/
def cleanupText (cs : List Char) : List Char := jsLower (jsTrim (collapseWs cs))

/-- The catch-block of `extractTextContent` (lines 33–40): strip script
blocks, then style blocks, then all remaining tags, then collapse
whitespace, trim and lowercase. -/
def fallbackExtract (html : List Char) : List Char :=
  cleanupText
    (stripAllTags
      (stripTagBlocks ['s', 't', 'y', 'l', 'e']
        (stripTagBlocks ['s', 'c', 'r', 'i', 'p', 't'] html)))

/-- `extractTextContent(html)` (lines 7–42).  The try-block depends on
the external cheerio module (dynamic import, DOM parse, element removal,
`$('body').text() || $('html').text()`); its outcome up to the raw text
is passed in as `primary`.  If any step of it threw, the catch-block
regex fallback runs on the raw html instead. -/
def extractTextContent (primary : Except (List Char) (List Char))
    (html : List Char) : List Char :=
  match primary with
  | Except.ok rawText => cleanupText rawText
  | Except.error _ => fallbackExtract html

/-- `extractTextContent` as a fallible computation: the whole body sits
inside try/catch, so the function yields a value for every outcome of
the primary path — it never propagates an error. -/
def extractTextContentE (primary : Except (List Char) (List Char))
    (html : List Char) : Except (List Char) (List Char) :=
  Except.ok (extractTextContent primary html)

/-- Result status of a domain analysis (`no_snapshots`, `clean`,
`suspicious`, `spam`, or `error` for the batch-level error records). -/
inductive DomainStatus where
  | no_snapshots
  | clean
  | suspicious
  | spam
  | error
deriving Repr, DecidableEq

/-- A CDX snapshot record, reduced to the field the analyzer reads
(`snapshot.timestamp`); the rest of the record only feeds the external
`getSnapshotHtml` call. -/
structure Snapshot where
  timestamp : List Char
deriving Repr, DecidableEq

/-- Accumulator of the per-snapshot loop in `analyzeDomainForSpam`
(lines 102–105): spam counter, running score total, the `Map` of stop
words to cumulative counts (as an insertion-ordered association list),
and the first spam timestamp. -/
structure SpamLoopState where
  spamSnapshots : Nat
  totalSpamScore : ℚ
  allFoundStopWords : List (List Char × Nat)
  firstSpamDate : Option (List Char)
deriving DecidableEq

/-- `map.get(k) || 0`: the value stored at `k`, or 0 when absent. -/
def mapGet (m : List (List Char × Nat)) (k : List Char) : Nat :=
  match m with
  | [] => 0
  | (k2, v) :: rest => if k2 = k then v else mapGet rest k

/-- `map.set(k, v)` of a JS `Map`: overwrite in place if `k` is present
(keeping its position), else append at the end. -/
def mapSet (m : List (List Char × Nat)) (k : List Char) (v : Nat) :
    List (List Char × Nat) :=
  match m with
  | [] => [(k, v)]
  | (k2, v2) :: rest => if k2 = k then (k2, v) :: rest else (k2, v2) :: mapSet rest k v

/-- The `analysis.stopWords.found.forEach` merge (lines 121–124): add
each found count into the cumulative map. -/
def mergeFound (m : List (List Char × Nat)) (found : List StopWordMatch) :
    List (List Char × Nat) :=
  found.foldl (fun m2 item => mapSet m2 item.word (mapGet m2 item.word + item.count)) m

/-- One iteration of the snapshot loop (lines 108–141), with the
fallible part — `await getSnapshotHtml(snapshot)` followed by
`await analyzeHtmlForSpam(htmlResult.html, stopWords)` — passed in as
`analyzeSnap`.  A throw is caught and the snapshot is skipped; a spam
verdict updates all four accumulators.  `firstSpamDate` is guarded by JS
falsiness (`if (!firstSpamDate)`), so a recorded empty timestamp can be
overwritten. -/
def snapStep (analyzeSnap : Snapshot → Except (List Char) HtmlSpamAnalysis)
    (st : SpamLoopState) (snap : Snapshot) : SpamLoopState :=
  match analyzeSnap snap with
  | Except.error _ => st
  | Except.ok a =>
    if a.isSpam then
      { spamSnapshots := st.spamSnapshots + 1
        totalSpamScore := st.totalSpamScore + a.spamScore
        allFoundStopWords := mergeFound st.allFoundStopWords a.stopWords.found
        firstSpamDate :=
          if st.firstSpamDate.getD [] = [] then some snap.timestamp
          else st.firstSpamDate }
    else st

/-- The comparator `(a, b) => b.count - a.count` passed to
`Array.prototype.sort`: `a` may precede `b` iff `b.count ≤ a.count`. -/
def byCountDesc (a b : StopWordMatch) : Bool := decide (b.count ≤ a.count)

/-- Result record of `analyzeDomainForSpam`.  `Option` marks JS object
fields that one of the two return sites omits: the zero-snapshot return
(lines 88–98) has a `spamScore` key but no `spamSnapshots`,
`spamPercentage` or `avgSpamScore` keys, while the main return (lines
160–171) is the other way around; an omitted key reads as `undefined`. -/
structure DomainAnalysis where
  domain : List Char
  snapshotsChecked : Nat
  spamSnapshots : Option Nat
  spamPercentage : Option ℚ
  avgSpamScore : Option ℚ
  spamDetected : Bool
  spamScore : Option ℚ
  totalStopWordsFound : Nat
  stopWordsFound : List StopWordMatch
  firstSpamDate : Option (List Char)
  status : DomainStatus
deriving DecidableEq

/-- `analyzeDomainForSpam(domain, stopWords, maxSnapshots, cb)` (lines
76–175), made pure: `snapshots` is the list the Snapshot Client returned
for the domain (already limited to `maxSnapshots`), and `analyzeSnap` is
the fallible fetch-and-analyze step for one snapshot.  The progress
callback only produces log strings and is dropped.  Note the status
if-chain (lines 153–158) tests the unrounded percentage, while the
returned `spamPercentage` field is rounded; `Array.from(map.entries())`
preserves insertion order and `sort` is stable, so the final list is the
stable descending-by-count sort of the map entries. -/
def analyzeDomainForSpam (domain : List Char) (snapshots : List Snapshot)
    (analyzeSnap : Snapshot → Except (List Char) HtmlSpamAnalysis) : DomainAnalysis :=
  if snapshots = [] then
    { domain := domain
      snapshotsChecked := 0
      spamSnapshots := none
      spamPercentage := none
      avgSpamScore := none
      spamDetected := false
      spamScore := some 0
      totalStopWordsFound := 0
      stopWordsFound := []
      firstSpamDate := none
      status := DomainStatus.no_snapshots }
  else
    let st := snapshots.foldl (snapStep analyzeSnap) ⟨0, 0, [], none⟩
    let spamPercentage : ℚ := (st.spamSnapshots : ℚ) / (snapshots.length : ℚ) * 100
    let avgSpamScore : ℚ :=
      if st.spamSnapshots > 0 then st.totalSpamScore / (st.spamSnapshots : ℚ) else 0
    let status :=
      if spamPercentage ≥ 50 then DomainStatus.spam
      else if spamPercentage > 0 then DomainStatus.suspicious
      else DomainStatus.clean
    { domain := domain
      snapshotsChecked := snapshots.length
      spamSnapshots := some st.spamSnapshots
      spamPercentage := some (round2 spamPercentage)
      avgSpamScore := some (round2 avgSpamScore)
      spamDetected := decide (st.spamSnapshots > 0)
      spamScore := none
      totalStopWordsFound := st.allFoundStopWords.length
      stopWordsFound :=
        (st.allFoundStopWords.map (fun p => StopWordMatch.mk p.1 p.2)).mergeSort byCountDesc
      firstSpamDate := st.firstSpamDate
      status := status }

/-- The `{domain, error: message, status: 'error'}` record the batch
loop pushes when one domain's analysis throws (lines 201–205). -/
structure DomainErrorRecord where
  domain : List Char
  error : List Char
  status : DomainStatus
deriving DecidableEq

/-- One element of the batch result: either a full analysis or the error
record of a failed domain. -/
inductive BatchRecord where
  | analysis (a : DomainAnalysis)
  | failure (e : DomainErrorRecord)
deriving DecidableEq

/-- `analyzeDomainsForSpam(domains, stopWords, maxSnapshots, cb)` (lines
185–216): trim each domain, skip blanks, run the (fallible) per-domain
analysis — `analyzeOne` stands for
`this.analyzeDomainForSpam(domain, stopWords, maxSnapshots, log)` — and
convert a throw into an error record instead of aborting. -/
def analyzeDomainsForSpam (domains : List (List Char))
    (analyzeOne : List Char → Except (List Char) DomainAnalysis) : List BatchRecord :=
  match domains with
  | [] => []
  | d :: rest =>
    let dt := jsTrim d
    if dt = [] then analyzeDomainsForSpam rest analyzeOne
    else
      match analyzeOne dt with
      | Except.ok r => BatchRecord.analysis r :: analyzeDomainsForSpam rest analyzeOne
      | Except.error e =>
          BatchRecord.failure ⟨dt, e, DomainStatus.error⟩ :: analyzeDomainsForSpam rest analyzeOne

/-- Worker for `specTokenCount`; the flag records whether the scanner is
currently inside a token. -/
def specTokensAux (inTok : Bool) (cs : List Char) : Nat :=
  match cs with
  | [] => 0
  | c :: rest =>
    if isJsWs c then specTokensAux false rest
    else if inTok then specTokensAux true rest
    else 1 + specTokensAux true rest

/-- Modelled from the spec words for the score formula: the count of
whitespace-delimited tokens of a text, i.e. of its maximal nonempty
non-whitespace runs.  Stated for comparison with the implementation's
`(jsSplitWs text).length`, which also counts an empty leading or
trailing piece. -/
def specTokenCount (cs : List Char) : Nat := specTokensAux false cs

/-- The successful snapshot analyses flagged spam, in loop order: exactly
the iterations of the snapshot loop that entered the
`if (analysis.isSpam)` branch. -/
def spamAnalyses (analyzeSnap : Snapshot → Except (List Char) HtmlSpamAnalysis)
    (snaps : List Snapshot) : List HtmlSpamAnalysis :=
  (snaps.filterMap (fun s => (analyzeSnap s).toOption)).filter (fun a => a.isSpam)

/-- Total count recorded for the word `wl` in a found list (0 if the
word does not occur). -/
def sumCountsOf (wl : List Char) (found : List StopWordMatch) : Nat :=
  ((found.filter (fun m => decide (m.word = wl))).map StopWordMatch.count).sum

/-- Cumulative occurrence count of the word `wl` over a list of
per-snapshot analyses. -/
def cumCount (wl : List Char) (l : List HtmlSpamAnalysis) : Nat :=
  (l.map (fun a => sumCountsOf wl a.stopWords.found)).sum

/-- Sum of the spam scores of a list of per-snapshot analyses. -/
def sumScores (l : List HtmlSpamAnalysis) : ℚ :=
  (l.map HtmlSpamAnalysis.spamScore).sum

/-- Keys of the association-list map, in insertion order. -/
def mapKeys (m : List (List Char × Nat)) : List (List Char) := m.map Prod.fst

/-- A minimal per-snapshot analysis flagged as spam with a given score
(used as a concrete external-world outcome in examples). -/
def mkSpamAnalysis (score : ℚ) : HtmlSpamAnalysis :=
  ⟨0, ⟨[], [], []⟩, ⟨[], 0, score⟩, true, score⟩

/-- A minimal per-snapshot analysis not flagged as spam. -/
def mkCleanAnalysis : HtmlSpamAnalysis :=
  ⟨0, ⟨[], [], []⟩, ⟨[], 0, 0⟩, false, 0⟩

/-- Concrete snapshot list: 5000 spam-flagged and 5001 clean snapshots.
The raw spam percentage is 500000/10001 ≈ 49.995 %, which rounds to
50.00 but is below the status threshold. -/
def statusCexSnaps : List Snapshot :=
  List.replicate 5000 ⟨['a']⟩ ++ List.replicate 5001 ⟨['b']⟩

/-- External outcome for `statusCexSnaps`: snapshots with timestamp `a`
are flagged spam, the others clean. -/
def statusCexAnalyze (s : Snapshot) : Except (List Char) HtmlSpamAnalysis :=
  if s.timestamp = ['a'] then Except.ok (mkSpamAnalysis 0) else Except.ok mkCleanAnalysis

/-- Concrete snapshot pair for the average-score rounding example. -/
def avgCexSnaps : List Snapshot := [⟨['a']⟩, ⟨['b']⟩]

/-- External outcome for `avgCexSnaps`: two spam snapshots with scores
0.01 and 0.02, whose exact average 0.015 is not representable in two
decimals. -/
def avgCexAnalyze (s : Snapshot) : Except (List Char) HtmlSpamAnalysis :=
  if s.timestamp = ['a'] then Except.ok (mkSpamAnalysis (1 / 100))
  else Except.ok (mkSpamAnalysis (2 / 100))

/-! Helper lemmas about the keyword scorer. -/

theorem checkStopWords_degenerate (text : List Char) (sw : List (List Char))
    (h : text = [] ∨ sw = []) : checkStopWords text sw = ⟨[], 0, 0⟩ := by
  unfold checkStopWords
  rw [if_pos h]

theorem splitWsAux_length_pos (cs : List Char) : ∀ (gap : Bool) (acc : List Char),
    0 < (splitWsAux gap cs acc).length := by
  induction cs with
  | nil => intro gap acc; simp [splitWsAux]
  | cons c rest ih =>
    intro gap acc
    simp only [splitWsAux]
    by_cases hws : isJsWs c
    · simp only [hws, if_true]
      cases gap with
      | true => simpa using ih true acc
      | false => simp
    · simpa [hws] using ih false (c :: acc)

theorem jsSplitWs_length_pos (cs : List Char) : 0 < (jsSplitWs cs).length :=
  splitWsAux_length_pos cs false []

theorem checkStopWords_eq (text : List Char) (sw : List (List Char))
    (h1 : text ≠ []) (h2 : sw ≠ []) :
    checkStopWords text sw =
      ⟨sw.foldl (swStep (jsLower text)) [],
       (sw.foldl (swStep (jsLower text)) []).length,
       round2 (min 100 ((sumCounts (sw.foldl (swStep (jsLower text)) []) : ℚ) /
         ((jsSplitWs text).length : ℚ) * 100))⟩ := by
  unfold checkStopWords
  rw [if_neg (by simp [h1, h2])]
  simp only [gt_iff_lt, jsSplitWs_length_pos text, if_true]

/-- C1 (amended): for non-empty text and stop words, the score is
`min(100, foundOccurrences / totalWords * 100)` rounded to two decimals,
with `totalWords` the length of `text.split(/\s+/)`. -/
theorem checkStopWords_score_formula (text : List Char) (sw : List (List Char))
    (h1 : text ≠ []) (h2 : sw ≠ []) :
    (checkStopWords text sw).score =
      round2 (min 100 ((sumCounts (checkStopWords text sw).found : ℚ) /
        ((jsSplitWs text).length : ℚ) * 100)) := by
  rw [checkStopWords_eq text sw h1 h2]

/-- Witness for `checkStopWords_score_formula` at concrete input. -/
theorem checkStopWords_score_formula_witness :
    ("cheap buy".toList ≠ [] ∧ (["buy".toList] : List (List Char)) ≠ []) ∧
      (checkStopWords ("cheap buy".toList) ["buy".toList]).score =
        round2 (min 100
          ((sumCounts (checkStopWords ("cheap buy".toList) ["buy".toList]).found : ℚ) /
            ((jsSplitWs ("cheap buy".toList)).length : ℚ) * 100)) :=
  ⟨⟨by decide, by decide⟩,
    checkStopWords_score_formula ("cheap buy".toList) ["buy".toList] (by decide) (by decide)⟩

/-- C1 counterexample: on the text `" buy"` (leading whitespace) with the
stop word `buy`, the implementation divides by the split length 2, not by
the token count 1, so the score is 50 and not the claimed 100. -/
theorem checkStopWords_score_not_token_formula :
    (checkStopWords (" buy".toList) ["buy".toList]).score ≠
      round2 (min 100
        ((sumCounts (checkStopWords (" buy".toList) ["buy".toList]).found : ℚ) /
          (specTokenCount (" buy".toList) : ℚ) * 100)) := by
  rw [checkStopWords_eq (" buy".toList) ["buy".toList] (by decide) (by decide)]
  have hfold : (["buy".toList] : List (List Char)).foldl
      (swStep (jsLower (" buy".toList))) [] = [⟨"buy".toList, 1⟩] := by decide
  have hsplit : (jsSplitWs (" buy".toList)).length = 2 := by decide
  have htok : specTokenCount (" buy".toList) = 1 := by decide
  simp only [hfold, hsplit, htok]
  have hsum : (sumCounts [⟨"buy".toList, 1⟩] : ℚ) = 1 := by norm_num [sumCounts]
  rw [hsum]
  have hl : min (100 : ℚ) (1 / (2 : ℚ) * 100) = 50 := by
    rw [min_eq_right] <;> norm_num
  have hr : min (100 : ℚ) (1 / (1 : ℚ) * 100) = 100 := by
    rw [min_eq_right] <;> norm_num
  norm_num [hl, hr, round2]

theorem word_mem_swStep (tl : List Char) (acc : List StopWordMatch) (w : List Char)
    (wl : List Char) :
    wl ∈ (swStep tl acc w).map StopWordMatch.word ↔
      wl ∈ acc.map StopWordMatch.word ∨
        (normalizeWord w = wl ∧ wl ≠ [] ∧ wl <:+: tl) := by
  unfold swStep
  by_cases h1 : normalizeWord w ≠ [] ∧ normalizeWord w <:+: tl
  · rw [if_pos h1]
    by_cases h2 : normalizeWord w ∈ acc.map StopWordMatch.word
    · rw [if_pos h2]
      constructor
      · exact Or.inl
      · rintro (h | ⟨rfl, _, _⟩)
        · exact h
        · exact h2
    · rw [if_neg h2]
      simp only [List.map_append, List.map_cons, List.map_nil, List.mem_append,
        List.mem_singleton]
      constructor
      · rintro (h | h)
        · exact Or.inl h
        · exact Or.inr ⟨h.symm, h ▸ h1.1, h ▸ h1.2⟩
      · rintro (h | ⟨rfl, _, _⟩)
        · exact Or.inl h
        · exact Or.inr rfl
  · rw [if_neg h1]
    constructor
    · exact Or.inl
    · rintro (h | ⟨rfl, hne, hinf⟩)
      · exact h
      · exact absurd ⟨hne, hinf⟩ h1

theorem word_mem_foldl_swStep (tl : List Char) (l : List (List Char)) :
    ∀ (acc : List StopWordMatch) (wl : List Char),
    (wl ∈ (l.foldl (swStep tl) acc).map StopWordMatch.word ↔
      wl ∈ acc.map StopWordMatch.word ∨
        ∃ w, w ∈ l ∧ normalizeWord w = wl ∧ wl ≠ [] ∧ wl <:+: tl) := by
  induction l with
  | nil => intro acc wl; simp
  | cons w rest ih =>
    intro acc wl
    rw [List.foldl_cons, ih, word_mem_swStep]
    constructor
    · rintro ((h | h) | ⟨w2, hw2, hrest⟩)
      · exact Or.inl h
      · exact Or.inr ⟨w, List.mem_cons_self w rest, h⟩
      · exact Or.inr ⟨w2, List.mem_cons_of_mem w hw2, hrest⟩
    · rintro (h | ⟨w2, hw2, hrest⟩)
      · exact Or.inl (Or.inl h)
      · rcases List.mem_cons.mp hw2 with rfl | hw2
        · exact Or.inl (Or.inr hrest)
        · exact Or.inr ⟨w2, hw2, hrest⟩

theorem nodup_word_swStep (tl : List Char) (acc : List StopWordMatch) (w : List Char)
    (h : (acc.map StopWordMatch.word).Nodup) :
    ((swStep tl acc w).map StopWordMatch.word).Nodup := by
  unfold swStep
  by_cases h1 : normalizeWord w ≠ [] ∧ normalizeWord w <:+: tl
  · rw [if_pos h1]
    by_cases h2 : normalizeWord w ∈ acc.map StopWordMatch.word
    · rwa [if_pos h2]
    · rw [if_neg h2]
      simp only [List.map_append, List.map_cons, List.map_nil]
      rw [List.nodup_append]
      exact ⟨h, List.nodup_singleton _, by simpa using fun hmem => h2 hmem⟩
  · rwa [if_neg h1]

theorem nodup_word_foldl_swStep (tl : List Char) (l : List (List Char)) :
    ∀ acc : List StopWordMatch, (acc.map StopWordMatch.word).Nodup →
    ((l.foldl (swStep tl) acc).map StopWordMatch.word).Nodup := by
  induction l with
  | nil => intro acc h; simpa using h
  | cons w rest ih =>
    intro acc h
    rw [List.foldl_cons]
    exact ih _ (nodup_word_swStep tl acc w h)

/-- C5: a stop word of the input list appears (after lowercasing and
trimming, and if the normalization is nonempty) among the found words iff
it is a substring of the lowercased text, and the found words carry no
duplicates. -/
theorem checkStopWords_found_iff (text : List Char) (sw : List (List Char))
    (w : List Char) (hw : w ∈ sw) (hne : normalizeWord w ≠ []) :
    (normalizeWord w ∈ (checkStopWords text sw).found.map StopWordMatch.word ↔
      normalizeWord w <:+: jsLower text) ∧
    ((checkStopWords text sw).found.map StopWordMatch.word).Nodup := by
  by_cases hd : text = [] ∨ sw = []
  · rcases hd with hd | hd
    · rw [checkStopWords_degenerate text sw (Or.inl hd)]
      subst hd
      constructor
      · constructor
        · intro h; simp at h
        · intro h
          simp only [jsLower, List.map_nil] at h
          exact absurd (List.infix_nil.mp h) hne
      · simp
    · subst hd; simp at hw
  · push_neg at hd
    rw [checkStopWords_eq text sw hd.1 hd.2]
    constructor
    · rw [word_mem_foldl_swStep]
      constructor
      · rintro (h | ⟨w2, _, _, _, hinf⟩)
        · simp at h
        · exact hinf
      · intro h
        exact Or.inr ⟨w, hw, rfl, hne, h⟩
    · exact nodup_word_foldl_swStep (jsLower text) sw [] (by simp)

/-- Witness for `checkStopWords_found_iff` at the spec's substring
example: the stop word `class` inside the text `classical`. -/
theorem checkStopWords_found_iff_witness :
    ("class".toList ∈ (["class".toList] : List (List Char)) ∧
      normalizeWord ("class".toList) ≠ []) ∧
    ((normalizeWord ("class".toList) ∈
        (checkStopWords ("classical".toList) ["class".toList]).found.map
          StopWordMatch.word ↔
        normalizeWord ("class".toList) <:+: jsLower ("classical".toList)) ∧
      ((checkStopWords ("classical".toList) ["class".toList]).found.map
        StopWordMatch.word).Nodup) :=
  ⟨⟨by decide, by decide⟩,
    checkStopWords_found_iff ("classical".toList) ["class".toList] ("class".toList)
      (by decide) (by decide)⟩

theorem length_swStep_le (tl : List Char) (acc : List StopWordMatch) (w : List Char) :
    (swStep tl acc w).length ≤ acc.length + 1 := by
  unfold swStep
  by_cases h1 : normalizeWord w ≠ [] ∧ normalizeWord w <:+: tl
  · rw [if_pos h1]
    by_cases h2 : normalizeWord w ∈ acc.map StopWordMatch.word
    · rw [if_pos h2]; omega
    · rw [if_neg h2]; simp
  · rw [if_neg h1]; omega

theorem length_foldl_swStep (tl : List Char) (l : List (List Char)) :
    ∀ acc : List StopWordMatch,
    (l.foldl (swStep tl) acc).length ≤ acc.length + l.length := by
  induction l with
  | nil => intro acc; simp
  | cons w rest ih =>
    intro acc
    rw [List.foldl_cons]
    calc (rest.foldl (swStep tl) (swStep tl acc w)).length
        ≤ (swStep tl acc w).length + rest.length := ih _
      _ ≤ acc.length + 1 + rest.length := by
          have := length_swStep_le tl acc w; omega
      _ = acc.length + (w :: rest).length := by simp; omega

theorem round2_nonneg {q : ℚ} (h : 0 ≤ q) : 0 ≤ round2 q := by
  unfold round2
  apply div_nonneg _ (by norm_num)
  have : (0 : ℤ) ≤ ⌊q * 100 + 1 / 2⌋ := Int.floor_nonneg.mpr (by linarith)
  exact_mod_cast this

theorem round2_le_100 {q : ℚ} (h : q ≤ 100) : round2 q ≤ 100 := by
  unfold round2
  rw [div_le_iff (by norm_num : (0 : ℚ) < 100)]
  have h1 : ⌊q * 100 + 1 / 2⌋ ≤ ⌊(100 : ℚ) * 100 + 1 / 2⌋ :=
    Int.floor_le_floor (by linarith)
  have h2 : ⌊(100 : ℚ) * 100 + 1 / 2⌋ = 10000 := by norm_num
  have : ⌊q * 100 + 1 / 2⌋ ≤ 10000 := by omega
  calc ((⌊q * 100 + 1 / 2⌋ : ℤ) : ℚ) ≤ ((10000 : ℤ) : ℚ) := by exact_mod_cast this
    _ = 100 * 100 := by norm_num

/-- C7: the number of found stop words is bounded by the length of the
stop-word list, and the score lies in [0, 100]. -/
theorem checkStopWords_count_le_and_score_bounds (text : List Char)
    (sw : List (List Char)) :
    (checkStopWords text sw).count ≤ sw.length ∧
    0 ≤ (checkStopWords text sw).score ∧ (checkStopWords text sw).score ≤ 100 := by
  by_cases hd : text = [] ∨ sw = []
  · rw [checkStopWords_degenerate text sw hd]
    exact ⟨by simp, by norm_num, by norm_num⟩
  · push_neg at hd
    rw [checkStopWords_eq text sw hd.1 hd.2]
    refine ⟨?_, ?_, ?_⟩
    · simpa using length_foldl_swStep (jsLower text) sw []
    · apply round2_nonneg
      exact le_min (by norm_num) (by positivity)
    · exact round2_le_100 (min_le_left _ _)

theorem checkStopWords_count_eq (text : List Char) (sw : List (List Char)) :
    (checkStopWords text sw).count = (checkStopWords text sw).found.length := by
  by_cases hd : text = [] ∨ sw = []
  · rw [checkStopWords_degenerate text sw hd]; rfl
  · push_neg at hd
    rw [checkStopWords_eq text sw hd.1 hd.2]

theorem checkStopWords_score_of_count_zero (text : List Char) (sw : List (List Char))
    (h : (checkStopWords text sw).count = 0) : (checkStopWords text sw).score = 0 := by
  by_cases hd : text = [] ∨ sw = []
  · rw [checkStopWords_degenerate text sw hd]
  · push_neg at hd
    rw [checkStopWords_eq text sw hd.1 hd.2] at h ⊢
    simp only at h
    have hnil : sw.foldl (swStep (jsLower text)) [] = [] := List.length_eq_zero.mp h
    simp only [hnil]
    have hsum : (sumCounts [] : ℚ) = 0 := by norm_num [sumCounts]
    rw [hsum]
    have hmin : min (100 : ℚ) (0 / ((jsSplitWs text).length : ℚ) * 100) = 0 := by
      rw [zero_div, zero_mul]
      exact min_eq_right (by norm_num)
    rw [hmin]
    norm_num [round2]

/-- C9: the `isSpam` verdict of the HTML analysis is equivalent to having
found at least one stop word; the `score > 5` disjunct adds nothing,
because a positive score already requires a found stop word. -/
theorem analyzeHtmlForSpam_isSpam_iff (tc : List Char) (mt : MetaTags)
    (sw : List (List Char)) :
    (analyzeHtmlForSpam tc mt sw).isSpam = true ↔
      0 < (analyzeHtmlForSpam tc mt sw).stopWords.count := by
  unfold analyzeHtmlForSpam
  simp only [Bool.or_eq_true, decide_eq_true_eq]
  constructor
  · rintro (h | h)
    · exact h
    · by_contra hc
      push_neg at hc
      have hzero : (checkStopWords (joinNonEmpty [tc, mt.title, mt.description,
          mt.keywords]) sw).count = 0 := by omega
      have := checkStopWords_score_of_count_zero _ sw hzero
      rw [this] at h
      norm_num at h
  · intro h
    exact Or.inl h

/-- C8: the text extractor is total over the outcome of the structured
parsing path: whenever that path fails, the result is the regex fallback
(script/style blocks stripped, remaining tags stripped, whitespace
collapsed, trimmed, lowercased) returned as a value, not an error. -/
theorem extractTextContent_never_raises (primary : Except (List Char) (List Char))
    (html : List Char) (e : List Char) (h : primary = Except.error e) :
    extractTextContentE primary html = Except.ok (fallbackExtract html) := by
  subst h; rfl

/-- Witness for `extractTextContent_never_raises` on the spec's example
document with a failing structured path. -/
theorem extractTextContent_never_raises_witness :
    extractTextContentE (Except.error ("cheerio unavailable".toList))
        ("<script>evil()</script><p>Hello World</p>".toList) =
      Except.ok (fallbackExtract ("<script>evil()</script><p>Hello World</p>".toList)) :=
  extractTextContent_never_raises (Except.error ("cheerio unavailable".toList))
    ("<script>evil()</script><p>Hello World</p>".toList)
    ("cheerio unavailable".toList) rfl

/-! Helper lemmas about the domain analyzer's accumulation loop. -/

theorem spamAnalyses_nil (f : Snapshot → Except (List Char) HtmlSpamAnalysis) :
    spamAnalyses f [] = [] := rfl

theorem spamAnalyses_cons (f : Snapshot → Except (List Char) HtmlSpamAnalysis)
    (s : Snapshot) (l : List Snapshot) :
    spamAnalyses f (s :: l) =
      (match f s with
       | Except.ok a => if a.isSpam then a :: spamAnalyses f l else spamAnalyses f l
       | Except.error _ => spamAnalyses f l) := by
  unfold spamAnalyses
  cases hfs : f s with
  | error e => simp [List.filterMap_cons, Except.toOption, hfs]
  | ok a =>
    by_cases ha : a.isSpam <;>
      simp [List.filterMap_cons, Except.toOption, hfs, List.filter_cons, ha]

theorem sumCountsOf_cons (wl : List Char) (item : StopWordMatch)
    (rest : List StopWordMatch) :
    sumCountsOf wl (item :: rest) =
      (if item.word = wl then item.count else 0) + sumCountsOf wl rest := by
  unfold sumCountsOf
  rw [List.filter_cons]
  by_cases h : item.word = wl <;> simp [h]

theorem mapGet_nil (k : List Char) : mapGet [] k = 0 := rfl

theorem mapGet_cons (k3 : List Char) (v3 : Nat) (rest : List (List Char × Nat))
    (k : List Char) :
    mapGet ((k3, v3) :: rest) k = if k3 = k then v3 else mapGet rest k := rfl

theorem mapSet_nil (k : List Char) (v : Nat) : mapSet [] k v = [(k, v)] := rfl

theorem mapSet_cons (k3 : List Char) (v3 : Nat) (rest : List (List Char × Nat))
    (k : List Char) (v : Nat) :
    mapSet ((k3, v3) :: rest) k v =
      if k3 = k then (k3, v) :: rest else (k3, v3) :: mapSet rest k v := rfl

theorem mapGet_mapSet (m : List (List Char × Nat)) (k : List Char) (v : Nat)
    (k2 : List Char) :
    mapGet (mapSet m k v) k2 = if k = k2 then v else mapGet m k2 := by
  induction m with
  | nil =>
    rw [mapSet_nil, mapGet_cons, mapGet_nil]
  | cons hd rest ih =>
    obtain ⟨k3, v3⟩ := hd
    rw [mapSet_cons]
    by_cases h3 : k3 = k
    · subst h3
      rw [if_pos rfl, mapGet_cons, mapGet_cons]
      by_cases h : k3 = k2
      · simp only [if_pos h]
      · simp only [if_neg h]
    · rw [if_neg h3, mapGet_cons, mapGet_cons]
      by_cases h : k3 = k2
      · have hne : ¬k = k2 := fun hk => h3 (h.trans hk.symm)
        simp only [if_pos h, if_neg hne]
      · simp only [if_neg h]
        rw [ih]

theorem mapGet_mergeFound (found : List StopWordMatch) :
    ∀ (m : List (List Char × Nat)) (wl : List Char),
    mapGet (mergeFound m found) wl = mapGet m wl + sumCountsOf wl found := by
  induction found with
  | nil => intro m wl; simp [mergeFound, sumCountsOf]
  | cons item rest ih =>
    intro m wl
    unfold mergeFound at ih ⊢
    rw [List.foldl_cons, ih, mapGet_mapSet, sumCountsOf_cons]
    by_cases h : item.word = wl
    · rw [if_pos h, if_pos h]
      have : mapGet m item.word = mapGet m wl := by rw [h]
      omega
    · rw [if_neg h, if_neg h]
      omega

theorem mapKeys_mapSet (m : List (List Char × Nat)) (k : List Char) (v : Nat) :
    mapKeys (mapSet m k v) =
      if k ∈ mapKeys m then mapKeys m else mapKeys m ++ [k] := by
  induction m with
  | nil => simp [mapSet_nil, mapKeys]
  | cons hd rest ih =>
    obtain ⟨k3, v3⟩ := hd
    rw [mapSet_cons]
    by_cases h3 : k3 = k
    · subst h3
      rw [if_pos rfl]
      have hmem : k3 ∈ mapKeys ((k3, v3) :: rest) := by simp [mapKeys]
      rw [if_pos hmem]
      simp [mapKeys]
    · rw [if_neg h3]
      have hcons : mapKeys ((k3, v3) :: mapSet rest k v) =
          k3 :: mapKeys (mapSet rest k v) := by simp [mapKeys]
      have hcons2 : mapKeys ((k3, v3) :: rest) = k3 :: mapKeys rest := by simp [mapKeys]
      rw [hcons, hcons2, ih]
      by_cases hmem : k ∈ mapKeys rest
      · rw [if_pos hmem, if_pos (List.mem_cons_of_mem k3 hmem)]
      · rw [if_neg hmem]
        have : k ∉ k3 :: mapKeys rest := by
          intro hk
          rcases List.mem_cons.mp hk with hk | hk
          · exact h3 hk.symm
          · exact hmem hk
        rw [if_neg this]
        simp

theorem nodup_mapKeys_mapSet (m : List (List Char × Nat)) (k : List Char) (v : Nat)
    (h : (mapKeys m).Nodup) : (mapKeys (mapSet m k v)).Nodup := by
  rw [mapKeys_mapSet]
  by_cases hmem : k ∈ mapKeys m
  · rwa [if_pos hmem]
  · rw [if_neg hmem]
    rw [List.nodup_append]
    exact ⟨h, List.nodup_singleton _, by simpa using hmem⟩

theorem nodup_mapKeys_mergeFound (found : List StopWordMatch) :
    ∀ m : List (List Char × Nat), (mapKeys m).Nodup →
    (mapKeys (mergeFound m found)).Nodup := by
  induction found with
  | nil => intro m h; simpa [mergeFound] using h
  | cons item rest ih =>
    intro m h
    unfold mergeFound at ih ⊢
    rw [List.foldl_cons]
    exact ih _ (nodup_mapKeys_mapSet m item.word _ h)

theorem foldl_snapStep_spamSnapshots (f : Snapshot → Except (List Char) HtmlSpamAnalysis)
    (snaps : List Snapshot) : ∀ st : SpamLoopState,
    (snaps.foldl (snapStep f) st).spamSnapshots =
      st.spamSnapshots + (spamAnalyses f snaps).length := by
  induction snaps with
  | nil => intro st; simp [spamAnalyses]
  | cons s rest ih =>
    intro st
    rw [List.foldl_cons, ih, spamAnalyses_cons]
    cases hfs : f s with
    | error e => simp [snapStep, hfs]
    | ok a =>
      by_cases ha : a.isSpam <;> simp [snapStep, hfs, ha] <;> omega

theorem foldl_snapStep_totalSpamScore (f : Snapshot → Except (List Char) HtmlSpamAnalysis)
    (snaps : List Snapshot) : ∀ st : SpamLoopState,
    (snaps.foldl (snapStep f) st).totalSpamScore =
      st.totalSpamScore + sumScores (spamAnalyses f snaps) := by
  induction snaps with
  | nil => intro st; simp [spamAnalyses, sumScores]
  | cons s rest ih =>
    intro st
    rw [List.foldl_cons, ih, spamAnalyses_cons]
    cases hfs : f s with
    | error e => simp [snapStep, hfs]
    | ok a =>
      by_cases ha : a.isSpam <;> simp [snapStep, hfs, ha, sumScores] <;> ring

theorem foldl_snapStep_mapGet (f : Snapshot → Except (List Char) HtmlSpamAnalysis)
    (snaps : List Snapshot) : ∀ (st : SpamLoopState) (wl : List Char),
    mapGet (snaps.foldl (snapStep f) st).allFoundStopWords wl =
      mapGet st.allFoundStopWords wl + cumCount wl (spamAnalyses f snaps) := by
  induction snaps with
  | nil => intro st wl; simp [spamAnalyses, cumCount]
  | cons s rest ih =>
    intro st wl
    rw [List.foldl_cons, ih, spamAnalyses_cons]
    cases hfs : f s with
    | error e => simp [snapStep, hfs]
    | ok a =>
      by_cases ha : a.isSpam <;> simp [snapStep, hfs, ha, cumCount]
      rw [mapGet_mergeFound]
      omega

theorem foldl_snapStep_nodup_keys (f : Snapshot → Except (List Char) HtmlSpamAnalysis)
    (snaps : List Snapshot) : ∀ st : SpamLoopState,
    (mapKeys st.allFoundStopWords).Nodup →
    (mapKeys (snaps.foldl (snapStep f) st).allFoundStopWords).Nodup := by
  induction snaps with
  | nil => intro st h; simpa using h
  | cons s rest ih =>
    intro st h
    rw [List.foldl_cons]
    apply ih
    cases hfs : f s with
    | error e => simpa [snapStep, hfs] using h
    | ok a =>
      by_cases ha : a.isSpam <;> simp [snapStep, hfs, ha]
      · exact nodup_mapKeys_mergeFound _ _ h
      · exact h

theorem analyzeDomainForSpam_eq (domain : List Char) (snaps : List Snapshot)
    (f : Snapshot → Except (List Char) HtmlSpamAnalysis) (h : snaps ≠ []) :
    analyzeDomainForSpam domain snaps f =
      { domain := domain
        snapshotsChecked := snaps.length
        spamSnapshots := some (spamAnalyses f snaps).length
        spamPercentage := some (round2 (((spamAnalyses f snaps).length : ℚ) /
          (snaps.length : ℚ) * 100))
        avgSpamScore := some (round2 (if 0 < (spamAnalyses f snaps).length then
          sumScores (spamAnalyses f snaps) / ((spamAnalyses f snaps).length : ℚ)
          else 0))
        spamDetected := decide (0 < (spamAnalyses f snaps).length)
        spamScore := none
        totalStopWordsFound :=
          (snaps.foldl (snapStep f) ⟨0, 0, [], none⟩).allFoundStopWords.length
        stopWordsFound :=
          ((snaps.foldl (snapStep f) ⟨0, 0, [], none⟩).allFoundStopWords.map
            (fun p => StopWordMatch.mk p.1 p.2)).mergeSort byCountDesc
        firstSpamDate := (snaps.foldl (snapStep f) ⟨0, 0, [], none⟩).firstSpamDate
        status :=
          if ((spamAnalyses f snaps).length : ℚ) / (snaps.length : ℚ) * 100 ≥ 50 then
            DomainStatus.spam
          else if ((spamAnalyses f snaps).length : ℚ) / (snaps.length : ℚ) * 100 > 0 then
            DomainStatus.suspicious
          else DomainStatus.clean } := by
  unfold analyzeDomainForSpam
  rw [if_neg h]
  simp only [foldl_snapStep_spamSnapshots f snaps ⟨0, 0, [], none⟩,
    foldl_snapStep_totalSpamScore f snaps ⟨0, 0, [], none⟩]
  norm_num

theorem ratio_ge_iff (k n : Nat) (hn : 0 < n) :
    ((k : ℚ) / (n : ℚ) * 100 ≥ 50) ↔ n ≤ 2 * k := by
  have hnQ : (0 : ℚ) < (n : ℚ) := by exact_mod_cast hn
  rw [ge_iff_le, div_mul_eq_mul_div, le_div_iff₀ hnQ]
  constructor
  · intro hh
    have : 50 * n ≤ k * 100 := by exact_mod_cast hh
    omega
  · intro hh
    have : 50 * n ≤ k * 100 := by omega
    exact_mod_cast this

theorem ratio_pos_iff (k n : Nat) (hn : 0 < n) :
    ((k : ℚ) / (n : ℚ) * 100 > 0) ↔ 0 < k := by
  have hnQ : (0 : ℚ) < (n : ℚ) := by exact_mod_cast hn
  rw [gt_iff_lt, div_mul_eq_mul_div, lt_div_iff₀ hnQ, zero_mul]
  constructor
  · intro hh
    have : 0 < k * 100 := by exact_mod_cast hh
    omega
  · intro hh
    have : 0 < k * 100 := by omega
    exact_mod_cast this

theorem analyzeDomainForSpam_status_iff (domain : List Char) (snaps : List Snapshot)
    (f : Snapshot → Except (List Char) HtmlSpamAnalysis) (h : snaps ≠ []) :
    ((analyzeDomainForSpam domain snaps f).status = DomainStatus.spam ↔
      snaps.length ≤ 2 * (spamAnalyses f snaps).length) ∧
    ((analyzeDomainForSpam domain snaps f).status = DomainStatus.suspicious ↔
      0 < (spamAnalyses f snaps).length ∧
        2 * (spamAnalyses f snaps).length < snaps.length) ∧
    ((analyzeDomainForSpam domain snaps f).status = DomainStatus.clean ↔
      (spamAnalyses f snaps).length = 0) := by
  have hn : 0 < snaps.length := List.length_pos.mpr h
  simp only [analyzeDomainForSpam_eq domain snaps f h]
  by_cases h1 : ((spamAnalyses f snaps).length : ℚ) / (snaps.length : ℚ) * 100 ≥ 50
  · rw [if_pos h1]
    have hk1 : snaps.length ≤ 2 * (spamAnalyses f snaps).length :=
      (ratio_ge_iff _ _ hn).mp h1
    refine ⟨⟨fun _ => hk1, fun _ => rfl⟩, ?_, ?_⟩
    · constructor
      · intro hc; exact absurd hc (by decide)
      · rintro ⟨_, hlt⟩; exact absurd hlt (by omega)
    · constructor
      · intro hc; exact absurd hc (by decide)
      · intro hk0; exact absurd hn (by omega)
  · rw [if_neg h1]
    have hk1 : ¬snaps.length ≤ 2 * (spamAnalyses f snaps).length :=
      fun hc => h1 ((ratio_ge_iff _ _ hn).mpr hc)
    by_cases h2 : ((spamAnalyses f snaps).length : ℚ) / (snaps.length : ℚ) * 100 > 0
    · rw [if_pos h2]
      have hk2 : 0 < (spamAnalyses f snaps).length := (ratio_pos_iff _ _ hn).mp h2
      refine ⟨?_, ⟨fun _ => ⟨hk2, by omega⟩, fun _ => rfl⟩, ?_⟩
      · constructor
        · intro hc; exact absurd hc (by decide)
        · intro hc; exact absurd hc hk1
      · constructor
        · intro hc; exact absurd hc (by decide)
        · intro hk0; exact absurd hk2 (by omega)
    · rw [if_neg h2]
      have hk2 : (spamAnalyses f snaps).length = 0 := by
        by_contra hc
        exact h2 ((ratio_pos_iff _ _ hn).mpr (Nat.pos_of_ne_zero hc))
      refine ⟨?_, ?_, ⟨fun _ => hk2, fun _ => rfl⟩⟩
      · constructor
        · intro hc; exact absurd hc (by decide)
        · intro hc; exact absurd hc hk1
      · constructor
        · intro hc; exact absurd hc (by decide)
        · rintro ⟨hpos, _⟩; exact absurd hpos (by omega)

/-- C2 (amended): the status is derived from the unrounded spam
percentage — equivalently from the counts: `spam` iff at least half the
checked snapshots were flagged, `suspicious` iff some but fewer than
half were, `clean` iff none were.  (The returned `spamPercentage` field
is rounded afterwards and can read 50.00 while the status is
`suspicious`.) -/
theorem analyzeDomainForSpam_status_characterization (domain : List Char)
    (snaps : List Snapshot) (f : Snapshot → Except (List Char) HtmlSpamAnalysis)
    (h : snaps ≠ []) :
    ((analyzeDomainForSpam domain snaps f).status = DomainStatus.spam ↔
      50 ≤ ((spamAnalyses f snaps).length : ℚ) / (snaps.length : ℚ) * 100) ∧
    ((analyzeDomainForSpam domain snaps f).status = DomainStatus.suspicious ↔
      0 < ((spamAnalyses f snaps).length : ℚ) / (snaps.length : ℚ) * 100 ∧
        ((spamAnalyses f snaps).length : ℚ) / (snaps.length : ℚ) * 100 < 50) ∧
    ((analyzeDomainForSpam domain snaps f).status = DomainStatus.clean ↔
      (spamAnalyses f snaps).length = 0) := by
  have hn : 0 < snaps.length := List.length_pos.mpr h
  obtain ⟨hspam, hsusp, hclean⟩ := analyzeDomainForSpam_status_iff domain snaps f h
  refine ⟨?_, ?_, hclean⟩
  · rw [hspam, ← ratio_ge_iff _ _ hn, ge_iff_le]
  · rw [hsusp]
    constructor
    · rintro ⟨hpos, hlt⟩
      refine ⟨(ratio_pos_iff _ _ hn).mpr hpos, ?_⟩
      by_contra hc
      push_neg at hc
      have := (ratio_ge_iff _ _ hn).mp hc
      omega
    · rintro ⟨hpos, hlt⟩
      refine ⟨(ratio_pos_iff _ _ hn).mp hpos, ?_⟩
      have : ¬(50 ≤ ((spamAnalyses f snaps).length : ℚ) / (snaps.length : ℚ) * 100) :=
        not_le.mpr hlt
      have h2 : ¬snaps.length ≤ 2 * (spamAnalyses f snaps).length :=
        fun hc => this ((ratio_ge_iff _ _ hn).mpr hc)
      omega

/-- Witness for `analyzeDomainForSpam_status_characterization` on a
one-snapshot run whose fetch fails. -/
theorem analyzeDomainForSpam_status_characterization_witness :
    (([⟨['t']⟩] : List Snapshot) ≠ []) ∧
    (((analyzeDomainForSpam ['d'] [⟨['t']⟩]
        (fun _ => Except.error ['x'])).status = DomainStatus.spam ↔
      50 ≤ ((spamAnalyses (fun _ => Except.error ['x']) [⟨['t']⟩]).length : ℚ) /
        (([⟨['t']⟩] : List Snapshot).length : ℚ) * 100) ∧
    ((analyzeDomainForSpam ['d'] [⟨['t']⟩]
        (fun _ => Except.error ['x'])).status = DomainStatus.suspicious ↔
      0 < ((spamAnalyses (fun _ => Except.error ['x']) [⟨['t']⟩]).length : ℚ) /
        (([⟨['t']⟩] : List Snapshot).length : ℚ) * 100 ∧
        ((spamAnalyses (fun _ => Except.error ['x']) [⟨['t']⟩]).length : ℚ) /
          (([⟨['t']⟩] : List Snapshot).length : ℚ) * 100 < 50) ∧
    ((analyzeDomainForSpam ['d'] [⟨['t']⟩]
        (fun _ => Except.error ['x'])).status = DomainStatus.clean ↔
      (spamAnalyses (fun _ => Except.error ['x']) [⟨['t']⟩]).length = 0)) :=
  ⟨by decide,
    analyzeDomainForSpam_status_characterization ['d'] [⟨['t']⟩]
      (fun _ => Except.error ['x']) (by decide)⟩

theorem spamAnalyses_append (f : Snapshot → Except (List Char) HtmlSpamAnalysis)
    (l1 l2 : List Snapshot) :
    spamAnalyses f (l1 ++ l2) = spamAnalyses f l1 ++ spamAnalyses f l2 := by
  unfold spamAnalyses
  rw [List.filterMap_append, List.filter_append]

theorem spamAnalyses_replicate_spam (f : Snapshot → Except (List Char) HtmlSpamAnalysis)
    (n : Nat) (s : Snapshot) (a : HtmlSpamAnalysis) (hf : f s = Except.ok a)
    (ha : a.isSpam = true) :
    spamAnalyses f (List.replicate n s) = List.replicate n a := by
  induction n with
  | zero => rfl
  | succ n ih =>
    rw [List.replicate_succ, spamAnalyses_cons, hf]
    simp only [ha, if_true, ih, List.replicate_succ]

theorem spamAnalyses_replicate_clean (f : Snapshot → Except (List Char) HtmlSpamAnalysis)
    (n : Nat) (s : Snapshot) (a : HtmlSpamAnalysis) (hf : f s = Except.ok a)
    (ha : a.isSpam = false) :
    spamAnalyses f (List.replicate n s) = [] := by
  induction n with
  | zero => rfl
  | succ n ih =>
    rw [List.replicate_succ, spamAnalyses_cons, hf]
    simp [ha, ih]

/-- C2 counterexample: with 5000 of 10001 snapshots flagged spam, the
returned `spamPercentage` field reads exactly 50 (the raw 49.995 %
rounds up), yet the status is `suspicious`, not `spam`. -/
theorem analyzeDomainForSpam_rounded_boundary :
    (analyzeDomainForSpam ['d'] statusCexSnaps statusCexAnalyze).spamPercentage =
        some 50 ∧
    (analyzeDomainForSpam ['d'] statusCexSnaps statusCexAnalyze).status =
        DomainStatus.suspicious ∧
    (analyzeDomainForSpam ['d'] statusCexSnaps statusCexAnalyze).status ≠
        DomainStatus.spam := by
  have hspamA : statusCexAnalyze ⟨['a']⟩ = Except.ok (mkSpamAnalysis 0) := rfl
  have hspamB : statusCexAnalyze ⟨['b']⟩ = Except.ok mkCleanAnalysis := rfl
  have hsp : spamAnalyses statusCexAnalyze statusCexSnaps =
      List.replicate 5000 (mkSpamAnalysis 0) := by
    unfold statusCexSnaps
    rw [spamAnalyses_append,
      spamAnalyses_replicate_spam statusCexAnalyze 5000 ⟨['a']⟩ (mkSpamAnalysis 0)
        hspamA rfl,
      spamAnalyses_replicate_clean statusCexAnalyze 5001 ⟨['b']⟩ mkCleanAnalysis
        hspamB rfl]
    rw [List.append_nil]
  have hlen : statusCexSnaps.length = 10001 := by
    rw [statusCexSnaps, List.length_append, List.length_replicate,
      List.length_replicate]
  have hne : statusCexSnaps ≠ [] := by
    intro hc
    rw [hc] at hlen
    simp at hlen
  have hstatus : (analyzeDomainForSpam ['d'] statusCexSnaps statusCexAnalyze).status =
      DomainStatus.suspicious := by
    refine ((analyzeDomainForSpam_status_iff ['d'] statusCexSnaps statusCexAnalyze
      hne).2.1).mpr ?_
    rw [hsp, hlen]
    simp only [List.length_replicate]
    omega
  refine ⟨?_, hstatus, ?_⟩
  · simp only [analyzeDomainForSpam_eq ['d'] statusCexSnaps statusCexAnalyze hne]
    rw [hsp, hlen]
    simp only [List.length_replicate]
    norm_num [round2]
  · rw [hstatus]
    decide

/-- C4 (amended): a run over zero snapshots returns the early record with
`status = no_snapshots`, `spamDetected = false`, `snapshotsChecked = 0`,
`totalStopWordsFound = 0`, empty `stopWordsFound`, null `firstSpamDate`
and an extra `spamScore` field 0 — but no `spamSnapshots`,
`spamPercentage` or `avgSpamScore` fields at all. -/
theorem analyzeDomainForSpam_no_snapshots (domain : List Char)
    (f : Snapshot → Except (List Char) HtmlSpamAnalysis) :
    analyzeDomainForSpam domain [] f =
      ⟨domain, 0, none, none, none, false, some 0, 0, [], none,
        DomainStatus.no_snapshots⟩ := rfl

/-- C4 counterexample: in the zero-snapshot record the `spamSnapshots`,
`spamPercentage` and `avgSpamScore` keys are simply absent (read as
`undefined`), which is not the claimed value 0. -/
theorem analyzeDomainForSpam_no_snapshots_fields_absent :
    (analyzeDomainForSpam ['e'] [] (fun _ => Except.error ['x'])).spamSnapshots =
        none ∧
    (analyzeDomainForSpam ['e'] [] (fun _ => Except.error ['x'])).spamPercentage =
        none ∧
    (analyzeDomainForSpam ['e'] [] (fun _ => Except.error ['x'])).avgSpamScore =
        none ∧
    (none : Option Nat) ≠ some 0 :=
  ⟨rfl, rfl, rfl, by simp⟩

/-- C10: for a run over at least one snapshot, `totalStopWordsFound` is
the size of the accumulated word map, i.e. the length of the
`stopWordsFound` sequence — the number of distinct words, not the sum of
their counts. -/
theorem analyzeDomainForSpam_totalStopWords_eq_length (domain : List Char)
    (snaps : List Snapshot) (f : Snapshot → Except (List Char) HtmlSpamAnalysis)
    (h : snaps ≠ []) :
    (analyzeDomainForSpam domain snaps f).totalStopWordsFound =
      (analyzeDomainForSpam domain snaps f).stopWordsFound.length := by
  simp only [analyzeDomainForSpam_eq domain snaps f h]
  rw [(List.mergeSort_perm _ byCountDesc).length_eq]
  simp

/-- Witness for `analyzeDomainForSpam_totalStopWords_eq_length` on a
one-snapshot run. -/
theorem analyzeDomainForSpam_totalStopWords_eq_length_witness :
    (([⟨['t']⟩] : List Snapshot) ≠ []) ∧
    (analyzeDomainForSpam ['d'] [⟨['t']⟩]
        (fun _ => Except.error ['x'])).totalStopWordsFound =
      (analyzeDomainForSpam ['d'] [⟨['t']⟩]
        (fun _ => Except.error ['x'])).stopWordsFound.length :=
  ⟨by decide,
    analyzeDomainForSpam_totalStopWords_eq_length ['d'] [⟨['t']⟩]
      (fun _ => Except.error ['x']) (by decide)⟩

theorem sumCountsOf_perm (wl : List Char) {l1 l2 : List StopWordMatch}
    (h : l1.Perm l2) : sumCountsOf wl l1 = sumCountsOf wl l2 := by
  unfold sumCountsOf
  exact ((h.filter _).map _).sum_eq

theorem mapKeys_cons (k : List Char) (v : Nat) (rest : List (List Char × Nat)) :
    mapKeys ((k, v) :: rest) = k :: mapKeys rest := rfl

theorem sumCountsOf_entries_not_mem (m : List (List Char × Nat)) (wl : List Char)
    (h : wl ∉ mapKeys m) :
    sumCountsOf wl (m.map (fun p => StopWordMatch.mk p.1 p.2)) = 0 := by
  induction m with
  | nil => rfl
  | cons hd rest ih =>
    obtain ⟨k, v⟩ := hd
    rw [mapKeys_cons] at h
    simp only [List.map_cons, sumCountsOf_cons]
    have hk : ¬(k = wl) := fun hc => h (by simp [hc])
    rw [if_neg hk, ih (fun hc => h (List.mem_cons_of_mem _ hc))]

theorem sumCountsOf_entries (m : List (List Char × Nat)) (wl : List Char)
    (h : (mapKeys m).Nodup) :
    sumCountsOf wl (m.map (fun p => StopWordMatch.mk p.1 p.2)) = mapGet m wl := by
  induction m with
  | nil => rfl
  | cons hd rest ih =>
    obtain ⟨k, v⟩ := hd
    rw [mapKeys_cons] at h
    have hnd := List.nodup_cons.mp h
    simp only [List.map_cons, sumCountsOf_cons, mapGet_cons]
    by_cases hk : k = wl
    · subst hk
      rw [if_pos rfl, if_pos rfl, sumCountsOf_entries_not_mem rest k hnd.1]
      omega
    · rw [if_neg hk, if_neg hk, ih hnd.2]
      simp

theorem byCountDesc_trans (a b c : StopWordMatch) (h1 : byCountDesc a b = true)
    (h2 : byCountDesc b c = true) : byCountDesc a c = true := by
  simp only [byCountDesc, decide_eq_true_eq] at *
  omega

theorem byCountDesc_total (a b : StopWordMatch) :
    (byCountDesc a b || byCountDesc b a) = true := by
  simp only [byCountDesc, Bool.or_eq_true, decide_eq_true_eq]
  omega

/-- C6 (amended): over `n ≥ 1` snapshots with `k` spam-flagged successful
analyses, the `spamPercentage` field is `k/n*100` rounded to two
decimals, the `avgSpamScore` field is the rounded average of the spam
snapshots' scores (0 when `k = 0`), and `stopWordsFound` is the merged
per-word mapping as a sequence: each word occurs at most once, the entry
of a word carries its cumulative count over the spam-flagged snapshots,
and the entries are sorted descending by count. -/
theorem analyzeDomainForSpam_aggregates (domain : List Char) (snaps : List Snapshot)
    (f : Snapshot → Except (List Char) HtmlSpamAnalysis) (h : snaps ≠ []) :
    (analyzeDomainForSpam domain snaps f).spamPercentage =
      some (round2 (((spamAnalyses f snaps).length : ℚ) / (snaps.length : ℚ) * 100)) ∧
    (analyzeDomainForSpam domain snaps f).avgSpamScore =
      some (round2 (if 0 < (spamAnalyses f snaps).length then
        sumScores (spamAnalyses f snaps) / ((spamAnalyses f snaps).length : ℚ)
        else 0)) ∧
    (analyzeDomainForSpam domain snaps f).stopWordsFound.Pairwise
      (fun a b => b.count ≤ a.count) ∧
    ((analyzeDomainForSpam domain snaps f).stopWordsFound.map
      StopWordMatch.word).Nodup ∧
    ∀ wl, sumCountsOf wl (analyzeDomainForSpam domain snaps f).stopWordsFound =
      cumCount wl (spamAnalyses f snaps) := by
  have hnd : (mapKeys (snaps.foldl (snapStep f)
      ⟨0, 0, [], none⟩).allFoundStopWords).Nodup :=
    foldl_snapStep_nodup_keys f snaps ⟨0, 0, [], none⟩ (by simp [mapKeys])
  simp only [analyzeDomainForSpam_eq domain snaps f h]
  refine ⟨trivial, trivial, ?_, ?_, ?_⟩
  · have hs := List.sorted_mergeSort byCountDesc_trans byCountDesc_total
      ((snaps.foldl (snapStep f) ⟨0, 0, [], none⟩).allFoundStopWords.map
        (fun p => StopWordMatch.mk p.1 p.2))
    exact hs.imp (fun hab => by simpa [byCountDesc] using hab)
  · have hperm := (List.mergeSort_perm
      ((snaps.foldl (snapStep f) ⟨0, 0, [], none⟩).allFoundStopWords.map
        (fun p => StopWordMatch.mk p.1 p.2)) byCountDesc).map StopWordMatch.word
    rw [hperm.nodup_iff]
    have hwords : (((snaps.foldl (snapStep f)
        ⟨0, 0, [], none⟩).allFoundStopWords.map
          (fun p => StopWordMatch.mk p.1 p.2)).map StopWordMatch.word) =
        mapKeys (snaps.foldl (snapStep f) ⟨0, 0, [], none⟩).allFoundStopWords := by
      rw [List.map_map]
      rfl
    rw [hwords]
    exact hnd
  · intro wl
    rw [sumCountsOf_perm wl (List.mergeSort_perm _ byCountDesc)]
    rw [sumCountsOf_entries _ wl hnd]
    have hg := foldl_snapStep_mapGet f snaps ⟨0, 0, [], none⟩ wl
    simpa [mapGet] using hg

/-- Witness for `analyzeDomainForSpam_aggregates` on a one-snapshot run. -/
theorem analyzeDomainForSpam_aggregates_witness :
    (([⟨['t']⟩] : List Snapshot) ≠ []) ∧
    ((analyzeDomainForSpam ['d'] [⟨['t']⟩]
        (fun _ => Except.error ['x'])).spamPercentage =
      some (round2 (((spamAnalyses (fun _ => Except.error ['x'])
        [⟨['t']⟩]).length : ℚ) / (([⟨['t']⟩] : List Snapshot).length : ℚ) * 100)) ∧
    (analyzeDomainForSpam ['d'] [⟨['t']⟩]
        (fun _ => Except.error ['x'])).avgSpamScore =
      some (round2 (if 0 < (spamAnalyses (fun _ => Except.error ['x'])
          [⟨['t']⟩]).length then
        sumScores (spamAnalyses (fun _ => Except.error ['x']) [⟨['t']⟩]) /
          ((spamAnalyses (fun _ => Except.error ['x']) [⟨['t']⟩]).length : ℚ)
        else 0)) ∧
    (analyzeDomainForSpam ['d'] [⟨['t']⟩]
        (fun _ => Except.error ['x'])).stopWordsFound.Pairwise
      (fun a b => b.count ≤ a.count) ∧
    ((analyzeDomainForSpam ['d'] [⟨['t']⟩]
        (fun _ => Except.error ['x'])).stopWordsFound.map
      StopWordMatch.word).Nodup ∧
    ∀ wl, sumCountsOf wl (analyzeDomainForSpam ['d'] [⟨['t']⟩]
        (fun _ => Except.error ['x'])).stopWordsFound =
      cumCount wl (spamAnalyses (fun _ => Except.error ['x']) [⟨['t']⟩])) :=
  ⟨by decide,
    analyzeDomainForSpam_aggregates ['d'] [⟨['t']⟩]
      (fun _ => Except.error ['x']) (by decide)⟩

/-- C6 counterexample: two spam snapshots with scores 0.01 and 0.02 have
the exact average 0.015, but the `avgSpamScore` field is the rounded
0.02 — the claim omitted the rounding. -/
theorem analyzeDomainForSpam_avg_is_rounded :
    (analyzeDomainForSpam ['d'] avgCexSnaps avgCexAnalyze).avgSpamScore ≠
      some (sumScores (spamAnalyses avgCexAnalyze avgCexSnaps) /
        ((spamAnalyses avgCexAnalyze avgCexSnaps).length : ℚ)) := by
  have hne : avgCexSnaps ≠ [] := by simp [avgCexSnaps]
  have hsp : spamAnalyses avgCexAnalyze avgCexSnaps =
      [mkSpamAnalysis (1 / 100), mkSpamAnalysis (2 / 100)] := by
    have ha : avgCexAnalyze ⟨['a']⟩ = Except.ok (mkSpamAnalysis (1 / 100)) := rfl
    have hb : avgCexAnalyze ⟨['b']⟩ = Except.ok (mkSpamAnalysis (2 / 100)) := rfl
    unfold avgCexSnaps
    rw [spamAnalyses_cons, ha]
    simp only [mkSpamAnalysis, if_true]
    rw [spamAnalyses_cons, hb]
    simp [spamAnalyses_nil, mkSpamAnalysis]
  simp only [analyzeDomainForSpam_eq ['d'] avgCexSnaps avgCexAnalyze hne, hsp]
  have hsum : sumScores [mkSpamAnalysis (1 / 100), mkSpamAnalysis (2 / 100)] =
      3 / 100 := by
    norm_num [sumScores, mkSpamAnalysis]
  simp only [hsum, List.length_cons, List.length_nil]
  norm_num [round2]

/-- C3: the batch analyzer yields exactly one record per non-blank
domain, in input order — an error record (with status `error` and the
thrown message) for the domains whose analysis raised, a normal analysis
record for all others; it never aborts mid-batch. -/
theorem analyzeDomainsForSpam_complete (domains : List (List Char))
    (analyzeOne : List Char → Except (List Char) DomainAnalysis) :
    analyzeDomainsForSpam domains analyzeOne =
      ((domains.map jsTrim).filter (fun d => decide (d ≠ []))).map
        (fun d =>
          match analyzeOne d with
          | Except.ok r => BatchRecord.analysis r
          | Except.error e => BatchRecord.failure ⟨d, e, DomainStatus.error⟩) := by
  induction domains with
  | nil => rfl
  | cons d rest ih =>
    simp only [analyzeDomainsForSpam, List.map_cons, List.filter_cons]
    by_cases hd : jsTrim d = []
    · simp [hd, ih]
    · have hdec : decide (jsTrim d ≠ []) = true := by simpa using hd
      rw [if_neg hd, hdec]
      simp only [if_true, List.map_cons]
      cases hA : analyzeOne (jsTrim d) <;> simp [hA, ih]

end SpamCheck
